import Mathlib

/-!
Verification of the harvest-and-enrich pipeline of `licscraper.py`.

The Python source is shallowly embedded below:

* `JVal` models parsed JSON values (the payloads the SERP API returns),
  together with Python-faithful operations: `pyGet` models `dict.get`
  (raising `AttributeError` on non-dicts), `pyIter` models `for x in v`
  (dict iteration yields keys, string iteration yields characters),
  `pyStr` models `str(v)`.
* `clean_linkedIn_profile_name` embeds the function of the same name
  (lines 56-65): `re.search` of the pattern
  `(?i)https?://(?:www\.)?linkedin\.com/in/([^\s/]+)` followed by
  `re.sub` stripping characters outside `[a-zA-Z0-9-_]`.  The regex
  engine is embedded as a leftmost-search scanner `reSearch` whose
  per-position matcher `matchAt` follows the pattern literally,
  including the backtracking order of `s?` and `(?:www\.)?`.
  Case-insensitivity is modelled for the ASCII range, which is where
  all of the pattern's literals live.
* `search_serp_results` embeds the extractor of the same name
  (lines 67-78), including its exception behaviour.
* `serpPayload`, `harvestLoop` and `run_serp_scraper` embed the
  paginated harvester (lines 80-128).  The network is an oracle
  `api : Nat → Except Unit Response` mapping the 1-based run index to
  either a transport failure (`requests.post` raising) or a `Response`
  carrying the `ok` flag and the parsed JSON body.  The harvester also
  returns a `RunTrace` per issued request recording the value of the
  internal page cursor at that moment and the exact payload sent.
* `enrichRecords` / `main_enrich` embed the enrichment loop of `main`
  (lines 205-229).  Per the external-interface contract, the
  profile-data capability signals a failed or empty lookup by an
  absent payload, modelled as `Option ContactInfo`.
-/

/-- Parsed JSON values, as returned by `response.json()`. -/
inductive JVal where
  | jnull
  | jbool (b : Bool)
  | jnum (n : Int)
  | jstr (s : String)
  | jarr (xs : List JVal)
  | jobj (fields : List (String × JVal))

/-- Key lookup in a JSON object's field list (Python `dict` access order). -/
def lookupKey (k : String) : List (String × JVal) → Option JVal
  | [] => none
  | (k2, v) :: rest => if k2 = k then some v else lookupKey k rest

mutual

/-- Python `repr` of a JSON value (used by `str` for values nested in
containers): strings are quoted with apostrophes, `True`/`False`/`None`
spelled the Python way. -/
def pyRepr : JVal → String
  | .jnull => "None"
  | .jbool b => if b then "True" else "False"
  | .jnum n => toString n
  | .jstr s => "\x27" ++ s ++ "\x27"
  | .jarr xs => "[" ++ pyReprArr xs ++ "]"
  | .jobj fs => "\x7b" ++ pyReprObj fs ++ "\x7d"

/-- Comma-joined `repr`s of the elements of a list. -/
def pyReprArr : List JVal → String
  | [] => ""
  | [x] => pyRepr x
  | x :: y :: rest => pyRepr x ++ ", " ++ pyReprArr (y :: rest)

/-- Comma-joined `repr`s of the entries of a dict. -/
def pyReprObj : List (String × JVal) → String
  | [] => ""
  | [(k, v)] => "\x27" ++ k ++ "\x27: " ++ pyRepr v
  | (k, v) :: kv :: rest => "\x27" ++ k ++ "\x27: " ++ pyRepr v ++ ", " ++ pyReprObj (kv :: rest)

end

/-- Python `str(v)`: the string itself for strings, `repr` otherwise. -/
def pyStr : JVal → String
  | .jstr s => s
  | v => pyRepr v

/-- Exceptions the embedded fragments can raise. -/
inductive PyErr where
  | keyError
  | attributeError
  | typeError
  deriving DecidableEq

/-- Python `v.get(k, dflt)`: defined on dicts, `AttributeError` otherwise. -/
def pyGet (v : JVal) (k : String) (dflt : JVal) : Except PyErr JVal :=
  match v with
  | .jobj fields => .ok ((lookupKey k fields).getD dflt)
  | _ => .error .attributeError

/-- Python iteration `for x in v`: lists yield elements, dicts yield their
keys, strings yield one-character strings, everything else raises
`TypeError`. -/
def pyIter : JVal → Except PyErr (List JVal)
  | .jarr xs => .ok xs
  | .jobj fields => .ok (fields.map (fun kv => .jstr kv.1))
  | .jstr s => .ok (s.data.map (fun c => .jstr (String.mk [c])))
  | _ => .error .typeError

/-- Code points matched by the regex class `\s` (Python `re`, `str`
pattern): ASCII whitespace plus the Unicode white-space characters. -/
def pySpaceCodes : List Nat :=
  [9, 10, 11, 12, 13, 28, 29, 30, 31, 32, 133, 160, 5760,
   8192, 8193, 8194, 8195, 8196, 8197, 8198, 8199, 8200, 8201, 8202,
   8232, 8233, 8239, 8287, 12288]

/-- Whether a character is matched by `\s`. -/
def pyIsSpace (c : Char) : Bool :=
  decide (c.toNat ∈ pySpaceCodes)

/-- Whether a character is matched by the capture class `[^\s/]`. -/
def slugChar (c : Char) : Bool :=
  !pyIsSpace c && !(c == '/')

/-- Whether a character survives `re.sub(r'[^a-zA-Z0-9-_]', '', ...)`,
i.e. lies in the identifier whitelist `[A-Za-z0-9_-]`. -/
def pyIdChar (c : Char) : Bool :=
  (decide (97 ≤ c.toNat) && decide (c.toNat ≤ 122)) ||
  (decide (65 ≤ c.toNat) && decide (c.toNat ≤ 90)) ||
  (decide (48 ≤ c.toNat) && decide (c.toNat ≤ 57)) ||
  c == '-' || c == '_'

/-- Case-insensitive comparison of an input character against a pattern
literal given in lower case (`(?i)` over the pattern's ASCII literals). -/
def ciEq (c pat : Char) : Bool :=
  c == pat || c == pat.toUpper

/-- Match a literal run of pattern characters at the head of the input,
returning the rest of the input on success. -/
def matchLit : List Char → List Char → Option (List Char)
  | [], cs => some cs
  | _ :: _, [] => none
  | p :: ps, c :: cs => if ciEq c p then matchLit ps cs else none

/-- The literal `http`. -/
def litHttp : List Char := ['h', 't', 't', 'p']

/-- The literal `://`. -/
def litCss : List Char := [':', '/', '/']

/-- The literal `www.`. -/
def litWww : List Char := ['w', 'w', 'w', '.']

/-- The literal `linkedin.com/in/`. -/
def litHost : List Char :=
  ['l', 'i', 'n', 'k', 'e', 'd', 'i', 'n', '.', 'c', 'o', 'm', '/', 'i', 'n', '/']

/-- Consume `s?://` after `http`: try the optional `s` greedily, then
backtrack to matching `://` directly, exactly as the engine would. -/
def afterScheme (rest : List Char) : Option (List Char) :=
  match rest with
  | [] => none
  | c :: cs2 =>
    if ciEq c 's' then
      match matchLit litCss cs2 with
      | some r => some r
      | none => matchLit litCss rest
    else matchLit litCss rest

/-- Consume `(?:www\.)?linkedin\.com/in/`: try `www.` greedily, then
backtrack to matching the host directly. -/
def afterHost (rest : List Char) : Option (List Char) :=
  match matchLit litWww rest with
  | some r =>
    match matchLit litHost r with
    | some r2 => some r2
    | none => matchLit litHost rest
  | none => matchLit litHost rest

/-- Match the whole pattern
`(?i)https?://(?:www\.)?linkedin\.com/in/([^\s/]+)` anchored at the head
of the input, returning the captured slug. -/
def matchAt (cs : List Char) : Option (List Char) :=
  match matchLit litHttp cs with
  | none => none
  | some rest =>
    match afterScheme rest with
    | none => none
    | some rest2 =>
      match afterHost rest2 with
      | none => none
      | some rest3 =>
        if (rest3.takeWhile slugChar).isEmpty then none
        else some (rest3.takeWhile slugChar)

/-- `re.search`: try the pattern at every position, leftmost first. -/
def reSearch : List Char → Option (List Char)
  | [] => none
  | c :: cs =>
    match matchAt (c :: cs) with
    | some cap => some cap
    | none => reSearch cs

/-- Lines 56-65 of `licscraper.py`: search for the LinkedIn profile
pattern and strip non-whitelisted characters from the captured slug.
Note the Python function returns the stripped slug even when stripping
leaves it empty; only a failed search yields `None`. -/
def clean_linkedIn_profile_name (profile_url : String) : Option String :=
  match reSearch profile_url.data with
  | some cap => some (String.mk (cap.filter pyIdChar))
  | none => none

/-- The inner loop of lines 71-77: walk the entries of one page's
`organic` array threading the `unique_matches` accumulator.  Each entry
is asked for its `url` field with default `{}` (raising on non-dict
entries, as `result.get` does), stringified, normalized, and the result
added when it is truthy (non-`None`, non-empty) and not already seen. -/
def extractOrganic (acc : List String) : List JVal → Except PyErr (List String)
  | [] => .ok acc
  | entry :: rest =>
    match pyGet entry "url" (.jobj []) with
    | .error e => .error e
    | .ok urlv =>
      match clean_linkedIn_profile_name (pyStr urlv) with
      | none => extractOrganic acc rest
      | some name =>
        if name = "" then extractOrganic acc rest
        else if name ∈ acc then extractOrganic acc rest
        else extractOrganic (acc ++ [name]) rest

/-- Lines 70-71 for one page: the `.get` chain
`page.get("content", {}).get("results", {}).get("organic", {})`
followed by iteration over the entries. -/
def extractPage (acc : List String) (page : JVal) : Except PyErr (List String) :=
  match pyGet page "content" (.jobj []) with
  | .error e => .error e
  | .ok content =>
    match pyGet content "results" (.jobj []) with
    | .error e => .error e
    | .ok results0 =>
      match pyGet results0 "organic" (.jobj []) with
      | .error e => .error e
      | .ok organic =>
        match pyIter organic with
        | .error e => .error e
        | .ok entries => extractOrganic acc entries

/-- Fold `extractPage` over the pages of the `results` array, threading
the shared `unique_matches` accumulator. -/
def extractPageList (acc : List String) : List JVal → Except PyErr (List String)
  | [] => .ok acc
  | page :: rest =>
    match extractPage acc page with
    | .error e => .error e
    | .ok acc2 => extractPageList acc2 rest

/-- Lines 67-78 of `licscraper.py`: `search_serp_results`.  The body is
`response.json()`; `["results"]` raises `KeyError` when the key is
missing (`TypeError` when the body is not a dict), after which every
page of the results array is scanned. -/
def search_serp_results (body : JVal) : Except PyErr (List String) :=
  match body with
  | .jobj fs =>
    match lookupKey "results" fs with
    | none => .error .keyError
    | some results =>
      match pyIter results with
      | .error e => .error e
      | .ok pages => extractPageList [] pages
  | _ => .error .typeError

/-- Lines 91-105 of `licscraper.py`: the request payload built for every
run.  The `start_page` and `pages` entries are commented out in the
source, so the payload never depends on the page cursor or the page
count, and the query text is sent with a hard-coded
`site:linkedin.com ` prepended. -/
def serpPayload (query : String) : List (String × JVal) :=
  [("source", .jstr "google_search"),
   ("user_agent_type", .jstr "desktop_chrome"),
   ("parse", .jstr "true"),
   ("limit", .jstr "100"),
   ("query", .jstr ("site:linkedin.com " ++ query)),
   ("locale", .jstr "en-us"),
   ("context", .jarr
     [.jobj [("key", .jstr "filter"), ("value", .jnum 1)],
      .jobj [("key", .jstr "results_language"), ("value", .jstr "en")],
      .jobj [("key", .jstr "nfpr"), ("value", .jbool true)]])]

/-- One SERP HTTP response: the `ok` flag of `requests` and the parsed
JSON body. -/
structure Response where
  ok : Bool
  body : JVal

/-- The ways one harvest run ends the whole process. -/
inductive Fatal where
  | transport
  | badStatus
  | extractError (e : PyErr)
  deriving DecidableEq

/-- Process exit status for each fatal outcome: `sys.exit(1)` for a bad
response status, and status 1 for an uncaught Python exception
(transport failure or an extraction error). -/
def fatalExitCode : Fatal → Nat
  | .transport => 1
  | .badStatus => 1
  | .extractError _ => 1

/-- What one issued request looked like: the value of the internal page
cursor variable `start` at the moment of the request, and the payload
actually posted. -/
structure RunTrace where
  cursor : Int
  payload : List (String × JVal)

/-- How `run_serp_scraper` ends: process termination with no value, or a
normal return of the accumulated profile-name set. -/
inductive Outcome where
  | fatal (f : Fatal)
  | returned (profiles : List String)

/-- `profile_names.add(result)` on the Python set, modelled as an
insertion-ordered duplicate-free list. -/
def setAdd (s : List String) (x : String) : List String :=
  if x ∈ s then s else s ++ [x]

/-- The `for run in range(1, runs + 1)` loop of lines 86-123, by fuel on
the remaining runs.  `api` maps the 1-based run index to the transport
result of `requests.post`; a transport exception and a non-`ok`
response both kill the process before anything is returned, and
`start`, the page cursor, is advanced by `pages` after every completed
run even though the payload never mentions it. -/
def harvestLoop (api : Nat → Except Unit Response) (query : String) (pages : Int) :
    Nat → Nat → Int → List String → List RunTrace × Outcome
  | 0, _, _, seen => ([], .returned seen)
  | n + 1, run, start, seen =>
    match api run with
    | .error _ => ([⟨start, serpPayload query⟩], .fatal .transport)
    | .ok resp =>
      if resp.ok then
        match search_serp_results resp.body with
        | .error e => ([⟨start, serpPayload query⟩], .fatal (.extractError e))
        | .ok ids =>
          (⟨start, serpPayload query⟩ ::
            (harvestLoop api query pages n (run + 1) (start + pages) (ids.foldl setAdd seen)).1,
           (harvestLoop api query pages n (run + 1) (start + pages) (ids.foldl setAdd seen)).2)
      else ([⟨start, serpPayload query⟩], .fatal .badStatus)

/-- Lines 80-128 of `licscraper.py`: `run_serp_scraper`.  The Oxylabs
credentials only parameterize the external call and are folded into the
`api` oracle. -/
def run_serp_scraper (runs : Nat) (pages : Int) (start : Int) (query : String)
    (api : Nat → Except Unit Response) : List RunTrace × Outcome :=
  harvestLoop api query pages runs 1 start []

/-- The contact payload of a successful profile lookup.  The library
always populates all five keys, so a present payload is truthy. -/
structure ContactInfo where
  email_address : Option String
  websites : List String
  twitter : Option String
  ims : Option String
  phone_numbers : List String

/-- The records printed by the enrichment loop of lines 206-225: one per
profile whose lookup returns a (truthy) payload.  Per the
external-interface contract, a failed, rate-limited, not-found or
empty-payload lookup is an absent payload, i.e. `none`. -/
def enrichRecords (profiles : List String) (lookup : String → Option ContactInfo) :
    List (String × ContactInfo) :=
  profiles.filterMap (fun p => (lookup p).map (fun ci => (p, ci)))

/-- Lines 205-225 literally: `linkedin_results = set()` is created
before the loop, the loop body prints contact records but contains no
statement touching `linkedin_results`, and both are in scope after the
loop.  Returns (printed records, `linkedin_results`). -/
def main_enrich_loop (lookup : String → Option ContactInfo) :
    List String → List (String × ContactInfo) → List String →
    List (String × ContactInfo) × List String
  | [], printed, linkedin_results => (printed, linkedin_results)
  | p :: rest, printed, linkedin_results =>
    match lookup p with
    | some ci => main_enrich_loop lookup rest (printed ++ [(p, ci)]) linkedin_results
    | none => main_enrich_loop lookup rest printed linkedin_results

/-- The enrichment phase of `main` applied to the harvested set. -/
def main_enrich (serp_results : List String) (lookup : String → Option ContactInfo) :
    List (String × ContactInfo) × List String :=
  main_enrich_loop lookup serp_results [] []

/-- A run's response fails: either `requests.post` raises (transport
level) or the response carries a non-success status. -/
def apiFails (api : Nat → Except Unit Response) (k : Nat) : Prop :=
  api k = .error () ∨ ∃ resp, api k = .ok resp ∧ resp.ok = false

/-- A run succeeds: the request returns, the status is a success, and
the extractor yields exactly the identifier list `ids k`. -/
def okRun (api : Nat → Except Unit Response) (ids : Nat → List String) (k : Nat) : Prop :=
  ∃ resp, api k = .ok resp ∧ resp.ok = true ∧ search_serp_results resp.body = .ok (ids k)

/-- Whether `search_serp_results` evaluates without raising. -/
def exOk : Except PyErr (List String) → Bool
  | .ok _ => true
  | .error _ => false

/-- An organic entry the extractor can read without raising: a dict. -/
def entryOk : JVal → Bool
  | .jobj _ => true
  | _ => false

/-- A page the extractor can walk without raising: a dict whose
`content` (if present) is a dict, whose `results` (if present) is a
dict, and whose `organic` (if present) is either a list of dicts or an
empty dict. -/
def pageOk : JVal → Bool
  | .jobj fs =>
    match (lookupKey "content" fs).getD (.jobj []) with
    | .jobj fs2 =>
      match (lookupKey "results" fs2).getD (.jobj []) with
      | .jobj fs3 =>
        match (lookupKey "organic" fs3).getD (.jobj []) with
        | .jarr xs => xs.all entryOk
        | .jobj fs4 => fs4.isEmpty
        | _ => false
      | _ => false
    | _ => false
  | _ => false

/-- A response body whose top-level `results` array is present and all
of whose pages are walkable. -/
def wellShaped : JVal → Bool
  | .jobj fs =>
    match lookupKey "results" fs with
    | some (.jarr pages) => pages.all pageOk
    | _ => false
  | _ => false

/-- A SERP api oracle answering every run with an empty results page. -/
def apiEmpty : Nat → Except Unit Response :=
  fun _ => .ok ⟨true, .jobj [("results", .jarr [])]⟩

/-- A SERP api oracle answering every run with a non-success status. -/
def apiBad : Nat → Except Unit Response :=
  fun _ => .ok ⟨false, .jnull⟩

/-- An organic entry carrying the given URL. -/
def entryFor (u : String) : JVal :=
  .jobj [("url", .jstr u)]

/-- A single-page response body whose organic entries carry the given
URLs. -/
def bodyFor (us : List String) : JVal :=
  .jobj [("results", .jarr
    [.jobj [("content", .jobj [("results", .jobj [("organic", .jarr (us.map entryFor))])])]])]

/-- A SERP api oracle: run 1 yields profiles a and b, every later run
yields profiles b and c. -/
def api2 : Nat → Except Unit Response :=
  fun k =>
    if k = 1 then .ok ⟨true, bodyFor ["https://linkedin.com/in/a", "https://linkedin.com/in/b"]⟩
    else .ok ⟨true, bodyFor ["https://linkedin.com/in/b", "https://linkedin.com/in/c"]⟩

/-- The identifier lists the runs of `api2` extract to. -/
def ids2 : Nat → List String :=
  fun k => if k = 1 then ["a", "b"] else ["b", "c"]

/-- A contact payload carrying only an email address. -/
def ci0 : ContactInfo :=
  ⟨some "j@x.com", [], none, none, []⟩

/-- A profile lookup failing exactly on identifier y. -/
def lookup0 : String → Option ContactInfo :=
  fun s => if s = "y" then none else some ci0

/-- A response whose first page is malformed (its `content` field is a
string, not a dict) and whose second page carries a good profile URL. -/
def badMixedResp : JVal :=
  .jobj [("results", .jarr
    [.jobj [("content", .jstr "oops")],
     .jobj [("content", .jobj [("results", .jobj [("organic", .jarr
       [entryFor "https://linkedin.com/in/bob"])])])]])]

/-- The trace and outcome of `harvestLoop` when run k (within range)
fails: the harvest ends in a fatal outcome, never in a returned set,
and no request beyond run k is ever issued. -/
theorem harvestLoop_fatal (api : Nat → Except Unit Response) (q : String) (p : Int) :
    ∀ (n run : Nat) (start : Int) (seen : List String) (k : Nat),
      run ≤ k → k < run + n → apiFails api k →
      ∃ f, (harvestLoop api q p n run start seen).2 = .fatal f ∧
        (harvestLoop api q p n run start seen).1.length ≤ k + 1 - run := by
  intro n
  induction n with
  | zero => intro run start seen k h1 h2 _; omega
  | succ m ih =>
    intro run start seen k h1 h2 hf
    cases ha : api run with
    | error e =>
      refine ⟨.transport, by simp [harvestLoop, ha], ?_⟩
      simp only [harvestLoop, ha, List.length_singleton]
      omega
    | ok resp =>
      cases hok : resp.ok with
      | false =>
        refine ⟨.badStatus, by simp [harvestLoop, ha, hok], ?_⟩
        simp only [harvestLoop, ha, hok, Bool.false_eq_true, if_false, List.length_singleton]
        omega
      | true =>
        cases hse : search_serp_results resp.body with
        | error e =>
          refine ⟨.extractError e, by simp [harvestLoop, ha, hok, hse], ?_⟩
          simp only [harvestLoop, ha, hok, if_true, hse, List.length_singleton]
          omega
        | ok ids =>
          have hkr : run ≠ k := by
            intro he
            subst he
            rcases hf with h | ⟨resp2, he2, hf2⟩
            · rw [ha] at h; cases h
            · rw [ha] at he2
              injection he2 with he3
              subst he3
              rw [hok] at hf2
              cases hf2
          obtain ⟨f, hf2, hl2⟩ :=
            ih (run + 1) (start + p) (ids.foldl setAdd seen) k (by omega) (by omega) hf
          refine ⟨f, ?_, ?_⟩
          · simpa [harvestLoop, ha, hok, hse] using hf2
          · simp only [harvestLoop, ha, hok, if_true, hse, List.length_cons]
            omega

/-- Claim C3: if any run's SERP request fails at the transport level or
returns a non-success status, the harvest never returns an identifier
set: the process terminates with exit code 1, and no request past the
failing run is issued. -/
theorem harvest_aborts_on_failed_response (api : Nat → Except Unit Response)
    (query : String) (pages start : Int) (runs k : Nat)
    (h1 : 1 ≤ k) (h2 : k ≤ runs) (hf : apiFails api k) :
    ∃ f, (run_serp_scraper runs pages start query api).2 = .fatal f ∧
      fatalExitCode f = 1 ∧
      (run_serp_scraper runs pages start query api).1.length ≤ k := by
  obtain ⟨f, ho, hl⟩ := harvestLoop_fatal api query pages runs 1 start [] k h1 (by omega) hf
  refine ⟨f, ho, by cases f <;> rfl, ?_⟩
  have : k + 1 - 1 = k := by omega
  rw [this] at hl
  exact hl

/-- Witness for claim C3: a single run answered with a non-success
status makes the harvest end in the fatal bad-status outcome. -/
theorem harvest_aborts_on_failed_response_witness :
    apiFails apiBad 1 ∧
    (run_serp_scraper 1 1 1 "site:example.com mayor" apiBad).1.length ≤ 1 ∧
    (run_serp_scraper 1 1 1 "site:example.com mayor" apiBad).2 = Outcome.fatal Fatal.badStatus := by
  have h := harvest_aborts_on_failed_response apiBad "site:example.com mayor" 1 1 1 1
    le_rfl le_rfl (Or.inr ⟨⟨false, .jnull⟩, rfl, rfl⟩)
  obtain ⟨f, _, _, hl⟩ := h
  exact ⟨Or.inr ⟨⟨false, .jnull⟩, rfl, rfl⟩, hl, rfl⟩

/-- Claim C4: in the enrichment loop, an identifier whose lookup fails
(signalled, per the profile-api contract, by an absent payload) is
silently skipped, and the identifiers around it still produce their
records: from X, Y, Z with Y failing, exactly X's and Z's records are
emitted. -/
theorem enrich_skips_failed_lookup (lookup : String → Option ContactInfo)
    (X Y Z : String) (cx cz : ContactInfo)
    (hX : lookup X = some cx) (hY : lookup Y = none) (hZ : lookup Z = some cz) :
    enrichRecords [X, Y, Z] lookup = [(X, cx), (Z, cz)] := by
  simp [enrichRecords, hX, hY, hZ]

/-- Witness for claim C4: with a lookup failing exactly on y, the
profiles x, y, z produce records for exactly x and z. -/
theorem enrich_skips_failed_lookup_witness :
    lookup0 "y" = none ∧
    enrichRecords ["x", "y", "z"] lookup0 = [("x", ci0), ("z", ci0)] :=
  ⟨rfl, enrich_skips_failed_lookup lookup0 "x" "y" "z" ci0 ci0 rfl rfl rfl⟩

/-- Claim C1 (code bug): at runs=2, pagesPerRun=1, startPage=1 the
harvester issues exactly 2 sequential requests and its internal page
cursor is 1 then 2, but neither request payload carries a `start_page`
or a `pages` entry: the pagination lines are commented out in the
source, so the page cursor and page count never reach the SERP API. -/
theorem harvest_requests_omit_pagination :
    (run_serp_scraper 2 1 1 "site:example.com mayor" apiEmpty).1.map
      (fun tr => (tr.cursor,
         lookupKey "start_page" tr.payload,
         lookupKey "pages" tr.payload)) =
      [(1, none, none), (2, none, none)] ∧
    (run_serp_scraper 2 1 1 "site:example.com mayor" apiEmpty).2 = Outcome.returned [] :=
  ⟨rfl, rfl⟩

/-- Claim C2 (code bug): the query text sent to the SERP API is not the
caller-supplied text: the payload's `query` entry is the caller text
with `site:linkedin.com ` prepended. -/
theorem payload_query_not_caller_supplied :
    lookupKey "query" (serpPayload "site:example.com mayor") =
      some (.jstr ("site:linkedin.com " ++ "site:example.com mayor")) ∧
    ("site:linkedin.com " ++ "site:example.com mayor" : String) ≠ "site:example.com mayor" :=
  ⟨rfl, by decide⟩

/-- Claim C9: the normalizer is a pure function of its input: repeated
invocations agree, and equal inputs give equal results. -/
theorem normalize_deterministic :
    (∀ s : String, clean_linkedIn_profile_name s = clean_linkedIn_profile_name s) ∧
    (∀ s t : String, s = t →
      clean_linkedIn_profile_name s = clean_linkedIn_profile_name t) :=
  ⟨fun _ => rfl, fun _ _ h => by rw [h]⟩

/-- Witness for claim C9: two invocations on a concrete URL agree. -/
theorem normalize_deterministic_witness :
    clean_linkedIn_profile_name "https://linkedin.com/in/u" =
      clean_linkedIn_profile_name "https://linkedin.com/in/u" :=
  normalize_deterministic.2 "https://linkedin.com/in/u" "https://linkedin.com/in/u" rfl

/-- The enrichment loop threads `linkedin_results` through unchanged and
appends one printed record per truthy lookup. -/
theorem main_enrich_loop_eq (lookup : String → Option ContactInfo) :
    ∀ (l : List String) (printed : List (String × ContactInfo)) (lr : List String),
      main_enrich_loop lookup l printed lr = (printed ++ enrichRecords l lookup, lr) := by
  intro l
  induction l with
  | nil => intro printed lr; simp [main_enrich_loop, enrichRecords]
  | cons p rest ih =>
    intro printed lr
    cases h : lookup p with
    | none => simp [main_enrich_loop, h, enrichRecords, ih]
    | some ci => simp [main_enrich_loop, h, enrichRecords, ih]

/-- Claim C10: whatever was harvested and however the lookups go, the
collection handed to the final report-display loop is empty; the
contact data only ever flows into the printed progress records. -/
theorem linkedin_results_always_empty (serp_results : List String)
    (lookup : String → Option ContactInfo) :
    (main_enrich serp_results lookup).2 = [] ∧
    (main_enrich serp_results lookup).1 = enrichRecords serp_results lookup := by
  rw [main_enrich, main_enrich_loop_eq]
  exact ⟨rfl, by simp⟩

/-- Identifiers accumulated by the organic walk are never empty: the
truthiness test on the cleaned name filters the empty string out. -/
theorem extractOrganic_nonempty :
    ∀ (entries : List JVal) (acc out : List String),
      (∀ x ∈ acc, x ≠ "") → extractOrganic acc entries = .ok out → ∀ x ∈ out, x ≠ "" := by
  intro entries
  induction entries with
  | nil =>
    intro acc out hacc h
    simp only [extractOrganic, Except.ok.injEq] at h
    subst h
    exact hacc
  | cons entry rest ih =>
    intro acc out hacc h
    simp only [extractOrganic] at h
    cases hg : pyGet entry "url" (.jobj []) with
    | error e => simp only [hg] at h; exact Except.noConfusion h
    | ok urlv =>
      simp only [hg] at h
      cases hc : clean_linkedIn_profile_name (pyStr urlv) with
      | none => simp only [hc] at h; exact ih acc out hacc h
      | some name =>
        simp only [hc] at h
        by_cases h1 : name = ""
        · rw [if_pos h1] at h; exact ih acc out hacc h
        · rw [if_neg h1] at h
          by_cases h2 : name ∈ acc
          · rw [if_pos h2] at h; exact ih acc out hacc h
          · rw [if_neg h2] at h
            refine ih (acc ++ [name]) out ?_ h
            intro x hx
            rcases List.mem_append.mp hx with hx | hx
            · exact hacc x hx
            · rw [List.mem_singleton.mp hx]; exact h1

/-- The per-page walk preserves the no-empty-identifier invariant. -/
theorem extractPage_nonempty (page : JVal) (acc out : List String)
    (hacc : ∀ x ∈ acc, x ≠ "") (h : extractPage acc page = .ok out) :
    ∀ x ∈ out, x ≠ "" := by
  simp only [extractPage] at h
  cases h1 : pyGet page "content" (.jobj []) with
  | error e => simp only [h1] at h; exact Except.noConfusion h
  | ok content =>
    simp only [h1] at h
    cases h2 : pyGet content "results" (.jobj []) with
    | error e => simp only [h2] at h; exact Except.noConfusion h
    | ok results0 =>
      simp only [h2] at h
      cases h3 : pyGet results0 "organic" (.jobj []) with
      | error e => simp only [h3] at h; exact Except.noConfusion h
      | ok organic =>
        simp only [h3] at h
        cases h4 : pyIter organic with
        | error e => simp only [h4] at h; exact Except.noConfusion h
        | ok entries =>
          simp only [h4] at h
          exact extractOrganic_nonempty entries acc out hacc h

/-- The page fold preserves the no-empty-identifier invariant. -/
theorem extractPageList_nonempty :
    ∀ (pages : List JVal) (acc out : List String),
      (∀ x ∈ acc, x ≠ "") → extractPageList acc pages = .ok out → ∀ x ∈ out, x ≠ "" := by
  intro pages
  induction pages with
  | nil =>
    intro acc out hacc h
    simp only [extractPageList, Except.ok.injEq] at h
    subst h
    exact hacc
  | cons page rest ih =>
    intro acc out hacc h
    simp only [extractPageList] at h
    cases hp : extractPage acc page with
    | error e => simp only [hp] at h; exact Except.noConfusion h
    | ok acc2 =>
      simp only [hp] at h
      exact ih acc2 out (extractPage_nonempty page acc acc2 hacc hp) h

/-- Claim C6 (amended): every identifier the normalizer returns consists
solely of whitelisted characters, and every identifier the extractor
emits is additionally non-empty — but the emptiness filtering happens at
the extractor's truthiness check, not inside the normalizer, which can
itself return the empty string. -/
theorem normalize_whitelist :
    (∀ (s r : String), clean_linkedIn_profile_name s = some r →
      ∀ c ∈ r.data, pyIdChar c = true) ∧
    (∀ (body : JVal) (out : List String), search_serp_results body = .ok out →
      ∀ x ∈ out, x ≠ "") := by
  constructor
  · intro s r h c hc
    simp only [clean_linkedIn_profile_name] at h
    cases hr : reSearch s.data with
    | none => simp only [hr] at h; exact Option.noConfusion h
    | some cap =>
      simp only [hr, Option.some.injEq] at h
      rw [← h] at hc
      exact (List.mem_filter.mp hc).2
  · intro body out h x hx
    simp only [search_serp_results] at h
    cases body with
    | jobj fs =>
      cases hlk : lookupKey "results" fs with
      | none => simp only [hlk] at h; exact Except.noConfusion h
      | some results =>
        simp only [hlk] at h
        cases hit : pyIter results with
        | error e => simp only [hit] at h; exact Except.noConfusion h
        | ok pages =>
          simp only [hit] at h
          exact extractPageList_nonempty pages [] out (by simp) h x hx
    | jnull => cases h
    | jbool b => cases h
    | jnum n => cases h
    | jstr s => cases h
    | jarr xs => cases h

/-- Counterexample to claim C6 as stated: a URL that matches the profile
pattern but whose slug consists only of non-whitelisted characters makes
the normalizer return the empty string, not "none". -/
theorem normalize_empty_slug_counterexample :
    clean_linkedIn_profile_name "https://linkedin.com/in/%%%" = some "" := by decide

/-- Witness for claim C6: the slug of a matched URL consists of
whitelisted characters, and a concrete extracted identifier is
non-empty. -/
theorem normalize_whitelist_witness :
    pyIdChar 'a' = true ∧ pyIdChar 'b' = true ∧ ("ab" : String) ≠ "" :=
  ⟨normalize_whitelist.1 "https://linkedin.com/in/ab" "ab" (by rfl) 'a' (by decide),
   normalize_whitelist.1 "https://linkedin.com/in/ab" "ab" (by rfl) 'b' (by decide),
   normalize_whitelist.2 (bodyFor ["https://linkedin.com/in/ab"]) ["ab"] rfl "ab" (by simp)⟩

/-- The organic walk never raises when every entry is a dict. -/
theorem extractOrganic_no_raise :
    ∀ (entries : List JVal) (acc : List String),
      entries.all entryOk = true → exOk (extractOrganic acc entries) = true := by
  intro entries
  induction entries with
  | nil => intro acc _; rfl
  | cons entry rest ih =>
    intro acc hall
    rw [List.all_cons, Bool.and_eq_true] at hall
    obtain ⟨he, hrest⟩ := hall
    cases entry with
    | jobj fs =>
      simp only [extractOrganic, pyGet]
      cases hc : clean_linkedIn_profile_name (pyStr ((lookupKey "url" fs).getD (.jobj []))) with
      | none => simp only [hc]; exact ih acc hrest
      | some name =>
        simp only [hc]
        by_cases h1 : name = ""
        · rw [if_pos h1]; exact ih acc hrest
        · rw [if_neg h1]
          by_cases h2 : name ∈ acc
          · rw [if_pos h2]; exact ih acc hrest
          · rw [if_neg h2]; exact ih (acc ++ [name]) hrest
    | jnull => simp [entryOk] at he
    | jbool b => simp [entryOk] at he
    | jnum n => simp [entryOk] at he
    | jstr s => simp [entryOk] at he
    | jarr xs => simp [entryOk] at he

/-- The per-page walk never raises on a walkable page. -/
theorem extractPage_no_raise (page : JVal) (acc : List String) (hp : pageOk page = true) :
    exOk (extractPage acc page) = true := by
  cases page with
  | jobj fs =>
    simp only [pageOk] at hp
    simp only [extractPage, pyGet]
    cases hcon : (lookupKey "content" fs).getD (.jobj []) with
    | jobj fs2 =>
      simp only [hcon] at hp ⊢
      cases hres : (lookupKey "results" fs2).getD (.jobj []) with
      | jobj fs3 =>
        simp only [hres] at hp ⊢
        cases horg : (lookupKey "organic" fs3).getD (.jobj []) with
        | jarr xs =>
          simp only [horg] at hp ⊢
          simp only [pyIter]
          exact extractOrganic_no_raise xs acc hp
        | jobj fs4 =>
          simp only [horg] at hp ⊢
          cases fs4 with
          | nil => rfl
          | cons kv rest => simp at hp
        | jnull => simp only [horg] at hp; exact Bool.noConfusion hp
        | jbool b => simp only [horg] at hp; exact Bool.noConfusion hp
        | jnum n => simp only [horg] at hp; exact Bool.noConfusion hp
        | jstr s => simp only [horg] at hp; exact Bool.noConfusion hp
      | jnull => simp only [hres] at hp; exact Bool.noConfusion hp
      | jbool b => simp only [hres] at hp; exact Bool.noConfusion hp
      | jnum n => simp only [hres] at hp; exact Bool.noConfusion hp
      | jstr s => simp only [hres] at hp; exact Bool.noConfusion hp
      | jarr xs => simp only [hres] at hp; exact Bool.noConfusion hp
    | jnull => simp only [hcon] at hp; exact Bool.noConfusion hp
    | jbool b => simp only [hcon] at hp; exact Bool.noConfusion hp
    | jnum n => simp only [hcon] at hp; exact Bool.noConfusion hp
    | jstr s => simp only [hcon] at hp; exact Bool.noConfusion hp
    | jarr xs => simp only [hcon] at hp; exact Bool.noConfusion hp
  | jnull => simp [pageOk] at hp
  | jbool b => simp [pageOk] at hp
  | jnum n => simp [pageOk] at hp
  | jstr s => simp [pageOk] at hp
  | jarr xs => simp [pageOk] at hp

/-- The page fold never raises when every page is walkable. -/
theorem extractPageList_no_raise :
    ∀ (pages : List JVal) (acc : List String),
      pages.all pageOk = true → exOk (extractPageList acc pages) = true := by
  intro pages
  induction pages with
  | nil => intro acc _; rfl
  | cons page rest ih =>
    intro acc hall
    rw [List.all_cons, Bool.and_eq_true] at hall
    obtain ⟨hp, hrest⟩ := hall
    have hq := extractPage_no_raise page acc hp
    cases he : extractPage acc page with
    | error e => rw [he] at hq; exact Bool.noConfusion hq
    | ok acc2 =>
      simp only [extractPageList, he]
      exact ih acc2 hrest

/-- An organic entry whose stringified URL normalizes to `None` or to
the empty string is skipped and the walk continues unchanged. -/
theorem extractOrganic_skip_entry :
    ∀ (l1 : List JVal) (acc : List String) (l2 : List JVal) (e urlv : JVal),
      pyGet e "url" (.jobj []) = .ok urlv →
      (clean_linkedIn_profile_name (pyStr urlv) = none ∨
       clean_linkedIn_profile_name (pyStr urlv) = some "") →
      extractOrganic acc (l1 ++ e :: l2) = extractOrganic acc (l1 ++ l2) := by
  intro l1
  induction l1 with
  | nil =>
    intro acc l2 e urlv hg hc
    simp only [List.nil_append, extractOrganic, hg]
    rcases hc with hc | hc
    · simp only [hc]
    · simp [hc]
  | cons x rest ih =>
    intro acc l2 e urlv hg hc
    simp only [List.cons_append, extractOrganic]
    cases hx : pyGet x "url" (.jobj []) with
    | error e2 => simp only [hx]
    | ok urlv2 =>
      simp only [hx]
      cases hcx : clean_linkedIn_profile_name (pyStr urlv2) with
      | none => simp only [hcx]; exact ih acc l2 e urlv hg hc
      | some name =>
        simp only [hcx]
        by_cases h1 : name = ""
        · rw [if_pos h1, if_pos h1]; exact ih acc l2 e urlv hg hc
        · rw [if_neg h1, if_neg h1]
          by_cases h2 : name ∈ acc
          · rw [if_pos h2, if_pos h2]; exact ih acc l2 e urlv hg hc
          · rw [if_neg h2, if_neg h2]; exact ih (acc ++ [name]) l2 e urlv hg hc

/-- Claim C7 (amended): the extractor never raises when the nested
fields it touches are dict-shaped (missing keys and missing or empty
URL fields included), and an entry whose URL field is missing or empty
is skipped with the walk continuing over the remaining entries; but a
wrongly-typed (non-dict) nested field raises, aborting extraction. -/
theorem extract_no_raise_on_missing_fields :
    (∀ body : JVal, wellShaped body = true → exOk (search_serp_results body) = true) ∧
    (∀ (acc : List String) (l1 l2 : List JVal) (fs : List (String × JVal)),
      lookupKey "url" fs = none →
      extractOrganic acc (l1 ++ JVal.jobj fs :: l2) = extractOrganic acc (l1 ++ l2)) ∧
    (∀ (acc : List String) (l1 l2 : List JVal) (fs : List (String × JVal)),
      lookupKey "url" fs = some (.jstr "") →
      extractOrganic acc (l1 ++ JVal.jobj fs :: l2) = extractOrganic acc (l1 ++ l2)) := by
  refine ⟨?_, ?_, ?_⟩
  · intro body hw
    cases body with
    | jobj fs =>
      simp only [wellShaped] at hw
      cases hlk : lookupKey "results" fs with
      | none => simp only [hlk] at hw; exact Bool.noConfusion hw
      | some results =>
        simp only [hlk] at hw
        cases results with
        | jarr pages =>
          simp only [search_serp_results, hlk, pyIter]
          exact extractPageList_no_raise pages [] hw
        | jnull => exact Bool.noConfusion hw
        | jbool b => exact Bool.noConfusion hw
        | jnum n => exact Bool.noConfusion hw
        | jstr s => exact Bool.noConfusion hw
        | jobj fs2 => exact Bool.noConfusion hw
    | jnull => simp [wellShaped] at hw
    | jbool b => simp [wellShaped] at hw
    | jnum n => simp [wellShaped] at hw
    | jstr s => simp [wellShaped] at hw
    | jarr xs => simp [wellShaped] at hw
  · intro acc l1 l2 fs hu
    refine extractOrganic_skip_entry l1 acc l2 (.jobj fs) (.jobj []) ?_ (Or.inl rfl)
    simp [pyGet, hu]
  · intro acc l1 l2 fs hu
    refine extractOrganic_skip_entry l1 acc l2 (.jobj fs) (.jstr "") ?_ (Or.inl rfl)
    simp [pyGet, hu]

/-- Counterexample to claim C7 as stated: a results array whose first
page has a wrongly-typed `content` field (a string) makes the extractor
raise `AttributeError`; the well-formed profile URL on the following
page is never reached. -/
theorem extract_raises_on_wrong_type_counterexample :
    search_serp_results badMixedResp = .error .attributeError := by rfl

/-- Witness for claim C7: a well-shaped body extracts without raising,
and entries with a missing or empty URL field are skipped. -/
theorem extract_no_raise_witness :
    exOk (search_serp_results (bodyFor ["https://linkedin.com/in/ok"])) = true ∧
    extractOrganic [] [JVal.jobj [("a", JVal.jnull)], entryFor "https://linkedin.com/in/ok"] =
      extractOrganic [] [entryFor "https://linkedin.com/in/ok"] ∧
    extractOrganic ["q"] [JVal.jobj [("url", JVal.jstr "")]] = extractOrganic ["q"] [] := by
  refine ⟨extract_no_raise_on_missing_fields.1 _ (by rfl), ?_, ?_⟩
  · simpa using extract_no_raise_on_missing_fields.2.1 []
      [] [entryFor "https://linkedin.com/in/ok"] [("a", JVal.jnull)] rfl
  · simpa using extract_no_raise_on_missing_fields.2.2 ["q"]
      [] [] [("url", JVal.jstr "")] rfl

/-- String append acts as list append on the character data. -/
theorem string_data_append (s t : String) : (s ++ t).data = s.data ++ t.data := by
  cases s; cases t; rfl

/-- Rebuilding a string from its character data is the identity. -/
theorem string_mk_data : ∀ s : String, String.mk s.data = s := by
  intro s; cases s; rfl

/-- `takeWhile` keeps a list all of whose elements satisfy the predicate. -/
theorem takeWhile_all {p : Char → Bool} :
    ∀ l : List Char, (∀ c ∈ l, p c = true) → l.takeWhile p = l := by
  intro l
  induction l with
  | nil => intro _; rfl
  | cons x xs ih =>
    intro h
    simp only [List.takeWhile, h x (List.mem_cons_self x xs)]
    rw [ih (fun c hc => h c (List.mem_cons_of_mem x hc))]

/-- `takeWhile` over good elements stops exactly at the first bad one. -/
theorem takeWhile_append_stop {p : Char → Bool} :
    ∀ (l : List Char) (x : Char) (r : List Char),
      (∀ c ∈ l, p c = true) → p x = false → (l ++ x :: r).takeWhile p = l := by
  intro l
  induction l with
  | nil => intro x r _ hx; simp only [List.nil_append, List.takeWhile, hx]
  | cons y ys ih =>
    intro x r h hx
    simp only [List.cons_append, List.takeWhile, List.append_eq,
      h y (List.mem_cons_self y ys)]
    rw [ih x r (fun c hc => h c (List.mem_cons_of_mem y hc)) hx]

/-- `filter` keeps a list all of whose elements satisfy the predicate. -/
theorem filter_all {p : Char → Bool} :
    ∀ l : List Char, (∀ c ∈ l, p c = true) → l.filter p = l := by
  intro l
  induction l with
  | nil => intro _; rfl
  | cons x xs ih =>
    intro h
    simp only [List.filter, h x (List.mem_cons_self x xs)]
    rw [ih (fun c hc => h c (List.mem_cons_of_mem x hc))]

/-- Whitelisted identifier characters are valid slug characters: they
are neither whitespace nor the path separator. -/
theorem pyId_slug (c : Char) (h : pyIdChar c = true) : slugChar c = true := by
  have hn : (97 ≤ c.toNat ∧ c.toNat ≤ 122) ∨ (65 ≤ c.toNat ∧ c.toNat ≤ 90) ∨
      (48 ≤ c.toNat ∧ c.toNat ≤ 57) ∨ c.toNat = 45 ∨ c.toNat = 95 := by
    simp only [pyIdChar, Bool.or_eq_true, Bool.and_eq_true, decide_eq_true_eq,
      beq_iff_eq] at h
    rcases h with (((h | h) | h) | h) | h
    · exact Or.inl h
    · exact Or.inr (Or.inl h)
    · exact Or.inr (Or.inr (Or.inl h))
    · subst h; exact Or.inr (Or.inr (Or.inr (Or.inl rfl)))
    · subst h; exact Or.inr (Or.inr (Or.inr (Or.inr rfl)))
  have hsp : c.toNat ∉ pySpaceCodes := by
    simp only [pySpaceCodes, List.mem_cons, List.not_mem_nil, or_false]
    omega
  have h47 : c.toNat ≠ 47 := by omega
  simp only [slugChar, pyIsSpace, Bool.and_eq_true, Bool.not_eq_true',
    decide_eq_false_iff_not, beq_eq_false_iff_ne]
  exact ⟨hsp, fun he => h47 (by subst he; rfl)⟩

/-- Every character surviving a literal match was in the input. -/
theorem matchLit_mem :
    ∀ (ps cs r : List Char), matchLit ps cs = some r → ∀ x ∈ r, x ∈ cs := by
  intro ps
  induction ps with
  | nil =>
    intro cs r h x hx
    simp only [matchLit, Option.some.injEq] at h
    subst h
    exact hx
  | cons p ps2 ih =>
    intro cs r h x hx
    cases cs with
    | nil => simp only [matchLit] at h; exact Option.noConfusion h
    | cons c cs2 =>
      simp only [matchLit] at h
      by_cases hc : ciEq c p = true
      · rw [if_pos hc] at h
        exact List.mem_cons_of_mem c (ih cs2 r h x hx)
      · rw [if_neg hc] at h
        exact Option.noConfusion h

/-- A literal starting with a colon only matches input containing one. -/
theorem matchLit_colon_head :
    ∀ (ps cs r : List Char), matchLit (':' :: ps) cs = some r → ':' ∈ cs := by
  intro ps cs r h
  cases cs with
  | nil => simp only [matchLit] at h; exact Option.noConfusion h
  | cons c cs2 =>
    simp only [matchLit] at h
    by_cases hc : ciEq c ':' = true
    · have hcc : c = ':' := by
        simp only [ciEq, Bool.or_eq_true, beq_iff_eq] at hc
        rcases hc with hc | hc
        · exact hc
        · rw [hc]; rfl
      subst hcc
      exact List.mem_cons_self ':' cs2
    · rw [if_neg hc] at h
      exact Option.noConfusion h

/-- The scheme part `s?://` only matches input containing a colon. -/
theorem afterScheme_colon (rest r : List Char) (h : afterScheme rest = some r) :
    ':' ∈ rest := by
  cases rest with
  | nil => simp only [afterScheme] at h; exact Option.noConfusion h
  | cons c cs2 =>
    simp only [afterScheme] at h
    by_cases hc : ciEq c 's' = true
    · rw [if_pos hc] at h
      cases h2 : matchLit litCss cs2 with
      | some r2 => exact List.mem_cons_of_mem c (matchLit_colon_head ['/', '/'] cs2 r2 h2)
      | none =>
        rw [h2] at h
        exact matchLit_colon_head ['/', '/'] (c :: cs2) r h
    · rw [if_neg hc] at h
      exact matchLit_colon_head ['/', '/'] (c :: cs2) r h

/-- The whole pattern only matches at a position whose suffix contains a
colon: the scheme (and its `://`) is not optional. -/
theorem matchAt_colon (cs r : List Char) (h : matchAt cs = some r) : ':' ∈ cs := by
  simp only [matchAt] at h
  cases h1 : matchLit litHttp cs with
  | none => simp only [h1] at h; exact Option.noConfusion h
  | some rest =>
    simp only [h1] at h
    cases h2 : afterScheme rest with
    | none => simp only [h2] at h; exact Option.noConfusion h
    | some rest2 =>
      exact matchLit_mem litHttp cs rest h1 ':' (afterScheme_colon rest rest2 h2)

/-- `re.search` of the profile pattern fails on any input containing no
colon at all — in particular on every scheme-less URL. -/
theorem reSearch_no_colon : ∀ cs : List Char, ':' ∉ cs → reSearch cs = none := by
  intro cs
  induction cs with
  | nil => intro _; rfl
  | cons c cs2 ih =>
    intro hn
    simp only [reSearch]
    cases hm : matchAt (c :: cs2) with
    | some cap => exact absurd (matchAt_colon (c :: cs2) cap hm) hn
    | none => exact ih (fun h2 => hn (List.mem_cons_of_mem c h2))

/-- A successful anchored match at the head is what the search returns. -/
theorem reSearch_at_head (cs cap : List Char) (h : matchAt cs = some cap) :
    reSearch cs = some cap := by
  cases cs with
  | nil => simp only [matchAt, litHttp, matchLit] at h; exact Option.noConfusion h
  | cons c rest => simp only [reSearch, h]

/-- Anchored match after the literal `http://linkedin.com/in/`. -/
theorem matchAt_lit1 (rest : List Char) :
    matchAt ("http://linkedin.com/in/".data ++ rest) =
      if (rest.takeWhile slugChar).isEmpty then none
      else some (rest.takeWhile slugChar) := rfl

/-- Anchored match after the literal `HTTPS://WWW.LINKEDIN.COM/IN/`. -/
theorem matchAt_lit2 (rest : List Char) :
    matchAt ("HTTPS://WWW.LINKEDIN.COM/IN/".data ++ rest) =
      if (rest.takeWhile slugChar).isEmpty then none
      else some (rest.takeWhile slugChar) := rfl

/-- Anchored match after the literal `https://www.linkedin.com/in/`. -/
theorem matchAt_lit3 (rest : List Char) :
    matchAt ("https://www.linkedin.com/in/".data ++ rest) =
      if (rest.takeWhile slugChar).isEmpty then none
      else some (rest.takeWhile slugChar) := rfl

/-- Normalization of a prefix-matched URL whose slug is entirely
whitelisted returns the slug itself. -/
theorem clean_with_good_slug (pre : String)
    (hm : ∀ rest : List Char, matchAt (pre.data ++ rest) =
      if (rest.takeWhile slugChar).isEmpty then none
      else some (rest.takeWhile slugChar))
    (s : String) (hne : s.data ≠ []) (hall : ∀ c ∈ s.data, pyIdChar c = true) :
    clean_linkedIn_profile_name (pre ++ s) = some s := by
  have tw : s.data.takeWhile slugChar = s.data :=
    takeWhile_all s.data (fun c hc => pyId_slug c (hall c hc))
  have hie : s.data.isEmpty = false := by
    cases hd : s.data with
    | nil => exact absurd hd hne
    | cons a l => rfl
  have hm2 : matchAt (pre.data ++ s.data) = some s.data := by
    rw [hm s.data, tw, hie]
    rfl
  have hr : reSearch ((pre ++ s).data) = some s.data := by
    rw [string_data_append]
    exact reSearch_at_head _ _ hm2
  simp only [clean_linkedIn_profile_name, hr]
  rw [filter_all s.data hall, string_mk_data]

/-- Normalization of a prefix-matched URL with a trailing path segment
captures the slug up to the separator. -/
theorem clean_with_trailing_segment (pre : String)
    (hm : ∀ rest : List Char, matchAt (pre.data ++ rest) =
      if (rest.takeWhile slugChar).isEmpty then none
      else some (rest.takeWhile slugChar))
    (s : String) (hne : s.data ≠ []) (hall : ∀ c ∈ s.data, pyIdChar c = true) :
    clean_linkedIn_profile_name (pre ++ s ++ "/p2") = some s := by
  have tw : (s.data ++ '/' :: ['p', '2']).takeWhile slugChar = s.data :=
    takeWhile_append_stop s.data '/' ['p', '2']
      (fun c hc => pyId_slug c (hall c hc)) rfl
  have hie : s.data.isEmpty = false := by
    cases hd : s.data with
    | nil => exact absurd hd hne
    | cons a l => rfl
  have hm2 : matchAt (pre.data ++ (s.data ++ '/' :: ['p', '2'])) = some s.data := by
    rw [hm (s.data ++ '/' :: ['p', '2']), tw, hie]
    rfl
  have hd : (pre ++ s ++ "/p2").data = pre.data ++ (s.data ++ '/' :: ['p', '2']) := by
    rw [string_data_append, string_data_append, List.append_assoc]
  have hr : reSearch ((pre ++ s ++ "/p2").data) = some s.data := by
    rw [hd]
    exact reSearch_at_head _ _ hm2
  simp only [clean_linkedIn_profile_name, hr]
  rw [filter_all s.data hall, string_mk_data]

/-- Claim C5 (amended): the normalizer matches case-insensitively with
the `www.` subdomain optional and the slug captured after `/in/` up to
the next whitespace or path separator, but the scheme is required —
`https?` makes only the final `s` optional, so a URL containing no
colon (in particular any scheme-less profile URL) never matches. -/
theorem normalize_scheme_required :
    (∀ s : String, s.data ≠ [] → (∀ c ∈ s.data, pyIdChar c = true) →
      clean_linkedIn_profile_name ("http://linkedin.com/in/" ++ s) = some s ∧
      clean_linkedIn_profile_name ("HTTPS://WWW.LINKEDIN.COM/IN/" ++ s) = some s ∧
      clean_linkedIn_profile_name ("https://www.linkedin.com/in/" ++ s ++ "/p2") = some s) ∧
    (∀ s : String, ':' ∉ s.data → clean_linkedIn_profile_name s = none) := by
  constructor
  · intro s hne hall
    exact ⟨clean_with_good_slug "http://linkedin.com/in/" matchAt_lit1 s hne hall,
      clean_with_good_slug "HTTPS://WWW.LINKEDIN.COM/IN/" matchAt_lit2 s hne hall,
      clean_with_trailing_segment "https://www.linkedin.com/in/" matchAt_lit3 s hne hall⟩
  · intro s h
    simp only [clean_linkedIn_profile_name, reSearch_no_colon s.data h]

/-- Counterexample to claim C5 as stated: a profile URL with no scheme
does not yield its slug — the normalizer returns nothing on it. -/
theorem normalize_requires_scheme_counterexample :
    clean_linkedIn_profile_name "www.linkedin.com/in/jane-doe-123" = none ∧
    clean_linkedIn_profile_name "www.linkedin.com/in/jane-doe-123" ≠ some "jane-doe-123" := by
  constructor
  · decide
  · decide

/-- Witness for claim C5: a schemed profile URL yields its slug, a
scheme-less one yields nothing. -/
theorem normalize_scheme_required_witness :
    clean_linkedIn_profile_name ("http://linkedin.com/in/" ++ "jane-doe-123") =
      some "jane-doe-123" ∧
    clean_linkedIn_profile_name "www.linkedin.com/in/jane" = none := by
  constructor
  · exact (normalize_scheme_required.1 "jane-doe-123" (by decide) (by decide)).1
  · exact normalize_scheme_required.2 "www.linkedin.com/in/jane" (by decide)

/-- Membership after a set insertion. -/
theorem mem_setAdd (s : List String) (a x : String) :
    x ∈ setAdd s a ↔ x ∈ s ∨ x = a := by
  simp only [setAdd]
  by_cases h : a ∈ s
  · rw [if_pos h]
    constructor
    · exact Or.inl
    · rintro (hx | rfl)
      · exact hx
      · exact h
  · rw [if_neg h]
    simp [List.mem_append]

/-- Membership after folding a run's identifiers into the seen set. -/
theorem mem_foldl_setAdd :
    ∀ (l s : List String) (x : String), x ∈ l.foldl setAdd s ↔ x ∈ s ∨ x ∈ l := by
  intro l
  induction l with
  | nil => intro s x; simp
  | cons a l2 ih =>
    intro s x
    simp only [List.foldl_cons, ih, mem_setAdd, List.mem_cons]
    tauto

/-- Set insertion preserves freedom from duplicates. -/
theorem nodup_setAdd (s : List String) (a : String) (h : s.Nodup) :
    (setAdd s a).Nodup := by
  simp only [setAdd]
  by_cases ha : a ∈ s
  · rw [if_pos ha]; exact h
  · rw [if_neg ha]
    rw [List.nodup_append]
    refine ⟨h, List.nodup_singleton a, ?_⟩
    intro x hx hx2
    rw [List.mem_singleton] at hx2
    subst hx2
    exact ha hx

/-- Folding a run's identifiers preserves freedom from duplicates. -/
theorem nodup_foldl_setAdd :
    ∀ (l s : List String), s.Nodup → (l.foldl setAdd s).Nodup := by
  intro l
  induction l with
  | nil => intro s h; exact h
  | cons a l2 ih => intro s h; exact ih (setAdd s a) (nodup_setAdd s a h)

/-- The accumulation invariant of the harvest loop: when every remaining
run succeeds, the loop returns a duplicate-free set holding exactly the
seen identifiers united with those of all remaining runs. -/
theorem harvestLoop_ok (api : Nat → Except Unit Response) (q : String) (p : Int)
    (ids : Nat → List String) :
    ∀ (n run : Nat) (start : Int) (seen : List String),
      (∀ k, run ≤ k → k < run + n → okRun api ids k) →
      ∃ out, (harvestLoop api q p n run start seen).2 = .returned out ∧
        (seen.Nodup → out.Nodup) ∧
        (∀ x, x ∈ out ↔ x ∈ seen ∨ ∃ k, run ≤ k ∧ k < run + n ∧ x ∈ ids k) := by
  intro n
  induction n with
  | zero =>
    intro run start seen _
    refine ⟨seen, rfl, fun h => h, ?_⟩
    intro x
    constructor
    · exact Or.inl
    · rintro (hx | ⟨k, h1, h2, _⟩)
      · exact hx
      · omega
  | succ m ih =>
    intro run start seen hok
    obtain ⟨resp, ha, hro, hse⟩ := hok run (le_refl run) (by omega)
    obtain ⟨out, ho, hnd, hm⟩ := ih (run + 1) (start + p) ((ids run).foldl setAdd seen)
      (fun k h1 h2 => hok k (by omega) (by omega))
    refine ⟨out, ?_, ?_, ?_⟩
    · simp only [harvestLoop, ha, hro, hse, if_true]
      exact ho
    · intro hs
      exact hnd (nodup_foldl_setAdd (ids run) seen hs)
    · intro x
      rw [hm x, mem_foldl_setAdd]
      constructor
      · rintro ((hx | hx) | ⟨k, h1, h2, hx⟩)
        · exact Or.inl hx
        · exact Or.inr ⟨run, le_refl run, by omega, hx⟩
        · exact Or.inr ⟨k, by omega, by omega, hx⟩
      · rintro (hx | ⟨k, h1, h2, hx⟩)
        · exact Or.inl (Or.inl hx)
        · by_cases hk : k = run
          · subst hk; exact Or.inl (Or.inr hx)
          · exact Or.inr ⟨k, by omega, by omega, hx⟩

/-- Claim C8: across a harvest whose runs all succeed, accumulation into
the seen set has union semantics: the returned set is duplicate-free and
holds exactly the union of the identifiers extracted by all runs. -/
theorem harvest_union_semantics (api : Nat → Except Unit Response)
    (query : String) (pages start : Int) (runs : Nat) (ids : Nat → List String)
    (hok : ∀ k, 1 ≤ k → k ≤ runs → okRun api ids k) :
    ∃ out, (run_serp_scraper runs pages start query api).2 = .returned out ∧
      out.Nodup ∧
      (∀ x, x ∈ out ↔ ∃ k, 1 ≤ k ∧ k ≤ runs ∧ x ∈ ids k) := by
  obtain ⟨out, ho, hnd, hm⟩ := harvestLoop_ok api query pages ids runs 1 start []
    (fun k h1 h2 => hok k h1 (by omega))
  refine ⟨out, ho, hnd List.nodup_nil, ?_⟩
  intro x
  rw [hm x]
  simp only [List.not_mem_nil, false_or]
  constructor
  · rintro ⟨k, h1, h2, hx⟩
    exact ⟨k, h1, by omega, hx⟩
  · rintro ⟨k, h1, h2, hx⟩
    exact ⟨k, h1, by omega, hx⟩

/-- Witness for claim C8: runs extracting to sets a, b and b, c harvest
to exactly the duplicate-free union a, b, c. -/
theorem harvest_union_semantics_witness :
    (run_serp_scraper 2 1 1 "mayor" api2).2 = Outcome.returned ["a", "b", "c"] ∧
    List.Nodup ["a", "b", "c"] := by
  obtain ⟨out, ho, hnd, hm⟩ := harvest_union_semantics api2 "mayor" 1 1 2 ids2
    (by
      intro k h1 h2
      have hk : k = 1 ∨ k = 2 := by omega
      rcases hk with rfl | rfl
      · exact ⟨⟨true, bodyFor ["https://linkedin.com/in/a", "https://linkedin.com/in/b"]⟩,
          rfl, rfl, rfl⟩
      · exact ⟨⟨true, bodyFor ["https://linkedin.com/in/b", "https://linkedin.com/in/c"]⟩,
          rfl, rfl, rfl⟩)
  have he : (run_serp_scraper 2 1 1 "mayor" api2).2 = Outcome.returned ["a", "b", "c"] := rfl
  refine ⟨he, ?_⟩
  rw [ho] at he
  injection he with h3
  rw [← h3]
  exact hnd
